import Mathlib

/-!
Shallow embedding of the type-introspection helpers in `src/index.ts`:
the classifier `getRealType`, the basic-kind query `getType` (JS `typeof`),
the aggregates `allItemsHaveTheSameType`, `everyItemHasAUniqueRealType`,
`countRealTypes`, and the harness equality `areEqual`.
-/

/-- The numeric kind of a JS number: the NaN sentinel, the two infinities,
or a finite value.  The classifier only inspects `Number.isNaN` and
`Number.isFinite`, so finite payloads are modelled as integers. -/
inductive JSNumber where
  | nan
  | posInf
  | negInf
  | finite (n : Int)
deriving DecidableEq, Repr

/-- A JS runtime value, covering every kind the source distinguishes:
the seven `typeof` primitives plus the object kinds separated by the
`instanceof` chain in `getRealType` (array, date, regexp, set, event) and
the plain-object fallback. -/
inductive JSValue where
  | boolean (b : Bool)
  | number (n : JSNumber)
  | string (s : String)
  | bigint (i : Int)
  | symbol
  | undefined
  | function
  | null
  | array (elems : List JSValue)
  | object
  | date
  | regexp
  | set
  | event

/-- The JS `typeof` operator on the modelled values: `null`, arrays, dates,
regexps, sets, events and plain objects all report `"object"`. -/
def jsTypeof : JSValue → String
  | .boolean _ => "boolean"
  | .number _ => "number"
  | .string _ => "string"
  | .bigint _ => "bigint"
  | .symbol => "symbol"
  | .undefined => "undefined"
  | .function => "function"
  | .null => "object"
  | .array _ => "object"
  | .object => "object"
  | .date => "object"
  | .regexp => "object"
  | .set => "object"
  | .event => "object"

/-- Source `getType`, from the repository: `return typeof value`. -/
def getType (value : JSValue) : String :=
  jsTypeof value

/-- JS `Number.isNaN`. -/
def numberIsNaN : JSValue → Bool
  | .number .nan => true
  | _ => false

/-- JS `Number.isFinite`. -/
def numberIsFinite : JSValue → Bool
  | .number (.finite _) => true
  | _ => false

/-- JS `value === null`. -/
def isNullValue : JSValue → Bool
  | .null => true
  | _ => false

/-- JS `value instanceof Array`. -/
def instanceofArray : JSValue → Bool
  | .array _ => true
  | _ => false

/-- JS `value instanceof Date`. -/
def instanceofDate : JSValue → Bool
  | .date => true
  | _ => false

/-- JS `value instanceof RegExp`. -/
def instanceofRegExp : JSValue → Bool
  | .regexp => true
  | _ => false

/-- JS `value instanceof Set`. -/
def instanceofSet : JSValue → Bool
  | .set => true
  | _ => false

/-- JS `value instanceof Event`. -/
def instanceofEvent : JSValue → Bool
  | .event => true
  | _ => false

/-- Source `getRealType`, from the repository: switch on `typeof value`, refining the
`number` case via `Number.isNaN` / `Number.isFinite` and the `object` case
via the null check and the `instanceof` chain; every other case (and the
fall-through after the `instanceof` chain) returns the `typeof` string. -/
def getRealType (value : JSValue) : String :=
  let type := jsTypeof value
  match type with
  | "number" =>
    if numberIsNaN value then "NaN"
    else if numberIsFinite value then type
    else "Infinity"
  | "object" =>
    if isNullValue value then "null"
    else if instanceofArray value then "array"
    else if instanceofDate value then "date"
    else if instanceofRegExp value then "regexp"
    else if instanceofSet value then "set"
    else if instanceofEvent value then "event"
    else type
  | _ => type

/-- Source `getTypesOfItems`, from the repository: `arr.map(getType)`. -/
def getTypesOfItems (arr : List JSValue) : List String :=
  arr.map getType

/-- Source `allItemsHaveTheSameType`, from the repository:
`types.every(item => item === types[0])`, where `types = getTypesOfItems arr`
and `types[0]` is `types.head?`. -/
def allItemsHaveTheSameType (arr : List JSValue) : Bool :=
  let types := getTypesOfItems arr
  types.all fun item => types.head? == some item

/-- Source `getRealTypesOfItems`, from the repository: `arr.map(getRealType)`. -/
def getRealTypesOfItems (arr : List JSValue) : List String :=
  arr.map getRealType

/-- The stateful `arr.every` loop of `everyItemHasAUniqueRealType`: `types`
is the accumulator array of labels pushed so far; a label already present
short-circuits to `false`, otherwise it is pushed and the scan continues. -/
def uniqueScan : List JSValue → List String → Bool
  | [], _ => true
  | item :: rest, types =>
    let type := getRealType item
    if types.contains type then false
    else uniqueScan rest (types ++ [type])

/-- Source `everyItemHasAUniqueRealType`, from the repository, starting the scan with an
empty `types` accumulator. -/
def everyItemHasAUniqueRealType (arr : List JSValue) : Bool :=
  uniqueScan arr []

/-- One step of the histogram accumulation in `countRealTypes`:
`types[type] ? types[type] += 1 : types[type] = 1` on the object `types`.
JS objects keep non-index string keys in insertion order, so the object is
an association list and a fresh key is appended at the end; the stored
counts are always ≥ 1, so the truthiness test on `types[type]` is key
presence. -/
def typesAccum : List (String × Nat) → String → List (String × Nat)
  | [], t => [(t, 1)]
  | (k, c) :: rest, t =>
    if k = t then (k, c + 1) :: rest
    else (k, c) :: typesAccum rest t

/-- Lexicographic comparison of character lists by codepoint. -/
def lexLe : List Char → List Char → Bool
  | [], _ => true
  | _ :: _, [] => false
  | a :: as, b :: bs =>
    if a.toNat < b.toNat then true
    else if b.toNat < a.toNat then false
    else lexLe as bs

/-- Plain codepoint-lexicographic order on strings: the "ordinary
lexicographic string comparison" of the spec's ordering contract. -/
def codepointLe (a b : String) : Prop :=
  lexLe a.data b.data = true

instance : DecidableRel codepointLe := fun a b =>
  inferInstanceAs (Decidable (lexLe a.data b.data = true))

/-- ASCII lowercasing of a string's characters (`Char.toLower` maps
`A`–`Z` to `a`–`z` and fixes everything else). -/
def lowerKey (s : String) : List Char :=
  s.data.map Char.toLower

/-- Model of JS `a.localeCompare(b) ≤ 0` under the default locale.  The
default (root) collation orders strings primarily by base letter,
case-insensitively; on the label vocabulary reachable from `getRealType`
(ASCII-alphabetic labels, pairwise distinct after lowercasing) it agrees
exactly with lexicographic comparison of the lowercased strings, which is
how it is modelled here.  Note this is NOT plain codepoint order: it puts
`"NaN"` after `"boolean"`. -/
def localeLe (a b : String) : Prop :=
  lexLe (lowerKey a) (lowerKey b) = true

instance : DecidableRel localeLe := fun a b =>
  inferInstanceAs (Decidable (lexLe (lowerKey a) (lowerKey b) = true))

/-- The comparator `(a, b) => a[0].localeCompare(b[0])` passed to `sort`,
as an ordering on histogram entries. -/
def histLe (p q : String × Nat) : Prop :=
  localeLe p.1 q.1

instance : DecidableRel histLe := fun p q =>
  inferInstanceAs (Decidable (localeLe p.1 q.1))

theorem char_toNat_inj {a b : Char} (h : a.toNat = b.toNat) : a = b :=
  Char.eq_of_val_eq (UInt32.eq_of_toBitVec_eq (BitVec.eq_of_toNat_eq h))

theorem lexLe_cons_iff {a b : Char} {as bs : List Char} :
    lexLe (a :: as) (b :: bs) = true ↔
      a.toNat < b.toNat ∨ (a.toNat = b.toNat ∧ lexLe as bs = true) := by
  simp only [lexLe]
  split_ifs with h1 h2
  · simp only [true_iff]
    exact Or.inl h1
  · simp only [Bool.false_eq_true, false_iff]
    rintro (h | ⟨h, -⟩) <;> omega
  · have h3 : a.toNat = b.toNat := by omega
    rw [h3]
    simp

theorem lexLe_total : ∀ a b : List Char, lexLe a b = true ∨ lexLe b a = true
  | [], _ => Or.inl rfl
  | _ :: _, [] => Or.inr rfl
  | a :: as, b :: bs => by
    rcases Nat.lt_trichotomy a.toNat b.toNat with h | h | h
    · exact Or.inl (lexLe_cons_iff.mpr (Or.inl h))
    · rcases lexLe_total as bs with ih | ih
      · exact Or.inl (lexLe_cons_iff.mpr (Or.inr ⟨h, ih⟩))
      · exact Or.inr (lexLe_cons_iff.mpr (Or.inr ⟨h.symm, ih⟩))
    · exact Or.inr (lexLe_cons_iff.mpr (Or.inl h))

theorem lexLe_trans : ∀ a b c : List Char,
    lexLe a b = true → lexLe b c = true → lexLe a c = true
  | [], _, _, _, _ => rfl
  | _ :: _, [], _, hab, _ => by simp [lexLe] at hab
  | _ :: _, _ :: _, [], _, hbc => by simp [lexLe] at hbc
  | a :: as, b :: bs, c :: cs, hab, hbc => by
    rw [lexLe_cons_iff] at hab hbc ⊢
    rcases hab with h | ⟨h, hab'⟩ <;> rcases hbc with h' | ⟨h', hbc'⟩
    · exact Or.inl (by omega)
    · exact Or.inl (by omega)
    · exact Or.inl (by omega)
    · exact Or.inr ⟨h.trans h', lexLe_trans as bs cs hab' hbc'⟩

theorem lexLe_antisymm : ∀ a b : List Char,
    lexLe a b = true → lexLe b a = true → a = b
  | [], [], _, _ => rfl
  | [], _ :: _, _, hba => by simp [lexLe] at hba
  | _ :: _, [], hab, _ => by simp [lexLe] at hab
  | a :: as, b :: bs, hab, hba => by
    rw [lexLe_cons_iff] at hab hba
    rcases hab with h | ⟨h, hab'⟩ <;> rcases hba with h' | ⟨h', hba'⟩ <;> try omega
    rw [char_toNat_inj h, lexLe_antisymm as bs hab' hba']

instance : IsTotal (String × Nat) histLe :=
  ⟨fun p q => lexLe_total (lowerKey p.1) (lowerKey q.1)⟩

instance : IsTrans (String × Nat) histLe :=
  ⟨fun p q r => lexLe_trans (lowerKey p.1) (lowerKey q.1) (lowerKey r.1)⟩

/-- Source `countRealTypes`, from the repository: fold the input through the histogram
object in insertion order, then `Object.entries(types).sort(...)` with the
`localeCompare` comparator.  The labels in the histogram are pairwise
distinct with pairwise distinct lowercasings, so any comparison sort with
this comparator produces the one list modelled here by insertion sort. -/
def countRealTypes (arr : List JSValue) : List (String × Nat) :=
  let types := arr.foldl (fun ts item => typesAccum ts (getRealType item)) []
  List.insertionSort histLe types

/-- The unsorted histogram built from a list of labels (proof vehicle: the
fold inside `countRealTypes`, factored over the label list). -/
def realTypeHist (ls : List String) : List (String × Nat) :=
  ls.foldl typesAccum []

/-- First-match lookup in the histogram association list (the object read
`types[type]`). -/
def keyLookup : List (String × Nat) → String → Option Nat
  | [], _ => none
  | (k, c) :: rest, t => if k = t then some c else keyLookup rest t

/-- The label vocabulary: every string `getRealType` can return. -/
def realTypeVocab : List String :=
  ["boolean", "number", "NaN", "Infinity", "string", "bigint", "symbol",
   "undefined", "function", "null", "array", "date", "regexp", "set",
   "event", "object"]

/-- The basic kind (`typeof` string) determined by a classification label
(proof vehicle for the refinement of `getType` by `getRealType`). -/
def typeofOfLabel : String → String
  | "NaN" => "number"
  | "Infinity" => "number"
  | "null" => "object"
  | "array" => "object"
  | "date" => "object"
  | "regexp" => "object"
  | "set" => "object"
  | "event" => "object"
  | l => l

/-- Model of JS strict equality `===` on the modelled values.  Primitive
kinds compare by value, with `NaN === NaN` false; each `Symbol()` is unique,
so two independently denoted symbols compare unequal.  Reference kinds
(arrays, plain objects, dates, regexps, sets, events, functions) compare by
reference identity in JS; this model has no aliasing, so two independently
denoted reference values compare unequal.  Values of different kinds are
never strictly equal. -/
def jsStrictEq : JSValue → JSValue → Bool
  | .boolean a, .boolean b => a == b
  | .string a, .string b => a == b
  | .bigint a, .bigint b => a == b
  | .undefined, .undefined => true
  | .null, .null => true
  | .number m, .number n =>
    match m, n with
    | .finite a, .finite b => a == b
    | .posInf, .posInf => true
    | .negInf, .negInf => true
    | _, _ => false
  | _, _ => false

/-- JS number-to-string conversion on the modelled numeric kinds (finite
payloads are integers, printed in decimal as JS prints integral numbers). -/
def jsNumToString : JSNumber → String
  | .nan => "NaN"
  | .posInf => "Infinity"
  | .negInf => "-Infinity"
  | .finite n => toString n

mutual

/-- The string contributed by one element under `Array.prototype.join`:
`undefined` and `null` become the empty string, every other element is
converted with `String(·)` (numbers in decimal, booleans as `true`/`false`,
nested arrays recursively joined with commas, plain objects as
`"[object Object]"`, sets and events via their `Object.prototype.toString`
tags).  `none` models a conversion that throws (symbols) or whose result is
host-defined and not modelled here (dates, functions, regexp source text). -/
def jsJoinElem : JSValue → Option String
  | .undefined => some ""
  | .null => some ""
  | .boolean b => some (cond b "true" "false")
  | .number n => some (jsNumToString n)
  | .string s => some s
  | .bigint i => some (toString i)
  | .array xs => jsArrayToString xs
  | .object => some "[object Object]"
  | .set => some "[object Set]"
  | .event => some "[object Event]"
  | .symbol => none
  | .date => none
  | .regexp => none
  | .function => none

/-- JS `Array.prototype.toString`: the elements' strings joined by commas. -/
def jsArrayToString : List JSValue → Option String
  | [] => some ""
  | [x] => jsJoinElem x
  | x :: y :: rest => do
    let s ← jsJoinElem x
    let r ← jsArrayToString (y :: rest)
    some (s ++ "," ++ r)

end

/-- Source `areEqual`, from the repository: when both arguments are arrays, compare
lengths and then the `toString` images (`a.toString() === b.toString()`);
otherwise fall back to strict equality `a === b`. -/
def areEqual (a b : JSValue) : Option Bool :=
  match a, b with
  | .array xs, .array ys =>
    if xs.length ≠ ys.length then some false
    else do
      let sa ← jsArrayToString xs
      let sb ← jsArrayToString ys
      some (sa == sb)
  | _, _ => some (jsStrictEq a b)

theorem typesAccum_keys (acc : List (String × Nat)) (t : String) :
    (typesAccum acc t).map Prod.fst =
      if t ∈ acc.map Prod.fst then acc.map Prod.fst
      else acc.map Prod.fst ++ [t] := by
  induction acc with
  | nil => simp [typesAccum]
  | cons p rest ih =>
    obtain ⟨k, c⟩ := p
    by_cases hk : k = t
    · subst hk
      simp [typesAccum]
    · simp only [typesAccum, if_neg hk, List.map_cons, ih]
      by_cases hm : t ∈ rest.map Prod.fst
      · rw [if_pos hm, if_pos (List.mem_cons_of_mem _ hm)]
      · rw [if_neg hm,
          if_neg (by simp only [List.mem_cons, not_or]; exact ⟨Ne.symm hk, hm⟩)]
        rfl

theorem typesAccum_sum (acc : List (String × Nat)) (t : String) :
    ((typesAccum acc t).map Prod.snd).sum = ((acc.map Prod.snd).sum) + 1 := by
  induction acc with
  | nil => simp [typesAccum]
  | cons p rest ih =>
    obtain ⟨k, c⟩ := p
    by_cases hk : k = t
    · subst hk
      rw [typesAccum, if_pos rfl]
      simp only [List.map_cons, List.sum_cons]
      omega
    · simp only [typesAccum, if_neg hk, List.map_cons, List.sum_cons, ih]
      omega

theorem typesAccum_pos (acc : List (String × Nat)) (t : String)
    (h : ∀ p ∈ acc, 1 ≤ p.2) : ∀ p ∈ typesAccum acc t, 1 ≤ p.2 := by
  induction acc with
  | nil =>
    intro p hp
    simp only [typesAccum, List.mem_singleton] at hp
    rw [hp]
  | cons q rest ih =>
    obtain ⟨k, c⟩ := q
    intro p hp
    by_cases hk : k = t
    · rw [typesAccum, if_pos hk] at hp
      rcases List.mem_cons.mp hp with hpe | hpm
      · rw [hpe]
        exact Nat.succ_le_succ (Nat.zero_le c)
      · exact h p (List.mem_cons_of_mem _ hpm)
    · rw [typesAccum, if_neg hk] at hp
      rcases List.mem_cons.mp hp with hpe | hpm
      · rw [hpe]
        exact h (k, c) (List.mem_cons_self _ _)
      · exact ih (fun r hr => h r (List.mem_cons_of_mem _ hr)) p hpm

theorem typesAccum_lookup (acc : List (String × Nat)) (t l : String) :
    keyLookup (typesAccum acc t) l =
      if l = t then some ((keyLookup acc t).getD 0 + 1) else keyLookup acc l := by
  induction acc with
  | nil =>
    by_cases hl : l = t
    · subst hl
      simp [typesAccum, keyLookup]
    · simp [typesAccum, keyLookup, hl, Ne.symm hl]
  | cons p rest ih =>
    obtain ⟨k, c⟩ := p
    by_cases hk : k = t
    · subst hk
      by_cases hl : l = k
      · subst hl
        simp [typesAccum, keyLookup]
      · simp [typesAccum, keyLookup, hl, Ne.symm hl]
    · by_cases hl : k = l
      · subst hl
        simp [typesAccum, keyLookup, hk, Ne.symm hk]
      · simp [typesAccum, keyLookup, hk, hl, ih]

theorem keyLookup_ne_none_iff (acc : List (String × Nat)) (l : String) :
    keyLookup acc l ≠ none ↔ l ∈ acc.map Prod.fst := by
  induction acc with
  | nil => simp [keyLookup]
  | cons p rest ih =>
    obtain ⟨k, c⟩ := p
    by_cases hk : k = l
    · subst hk
      simp [keyLookup]
    · simp [keyLookup, hk, ih, Ne.symm hk]

theorem keyLookup_mem (acc : List (String × Nat)) (hnd : (acc.map Prod.fst).Nodup)
    (l : String) (c : Nat) : (l, c) ∈ acc ↔ keyLookup acc l = some c := by
  induction acc with
  | nil => simp [keyLookup]
  | cons p rest ih =>
    obtain ⟨k, d⟩ := p
    simp only [List.map_cons, List.nodup_cons] at hnd
    by_cases hk : k = l
    · subst hk
      rw [keyLookup, if_pos rfl]
      simp only [List.mem_cons, Prod.mk.injEq, Option.some.injEq]
      constructor
      · rintro (⟨-, rfl⟩ | hmem)
        · rfl
        · exact absurd (List.mem_map_of_mem Prod.fst hmem) hnd.1
      · rintro rfl
        exact Or.inl ⟨trivial, rfl⟩
    · rw [keyLookup, if_neg hk, ← ih hnd.2]
      simp only [List.mem_cons, Prod.mk.injEq]
      constructor
      · rintro (⟨rfl, -⟩ | hmem)
        · exact absurd rfl hk
        · exact hmem
      · exact Or.inr

theorem countRealTypes_eq (arr : List JSValue) :
    countRealTypes arr =
      List.insertionSort histLe (realTypeHist (arr.map getRealType)) := by
  unfold countRealTypes realTypeHist
  rw [List.foldl_map]

theorem foldl_typesAccum_sum (ls : List String) (acc : List (String × Nat)) :
    ((ls.foldl typesAccum acc).map Prod.snd).sum =
      ((acc.map Prod.snd).sum) + ls.length := by
  induction ls generalizing acc with
  | nil => simp
  | cons t ls ih =>
    rw [List.foldl_cons, ih, typesAccum_sum, List.length_cons]
    omega

theorem foldl_typesAccum_pos (ls : List String) (acc : List (String × Nat))
    (h : ∀ p ∈ acc, 1 ≤ p.2) : ∀ p ∈ ls.foldl typesAccum acc, 1 ≤ p.2 := by
  induction ls generalizing acc with
  | nil => exact h
  | cons t ls ih => exact ih _ (typesAccum_pos acc t h)

theorem foldl_typesAccum_keys_nodup (ls : List String) (acc : List (String × Nat))
    (h : (acc.map Prod.fst).Nodup) :
    ((ls.foldl typesAccum acc).map Prod.fst).Nodup := by
  induction ls generalizing acc with
  | nil => exact h
  | cons t ls ih =>
    refine ih _ ?_
    rw [typesAccum_keys]
    by_cases hm : t ∈ acc.map Prod.fst
    · rw [if_pos hm]
      exact h
    · rw [if_neg hm]
      simp [List.nodup_append, h, hm]

theorem foldl_typesAccum_ne_none (ls : List String) (acc : List (String × Nat))
    (l : String) :
    keyLookup (ls.foldl typesAccum acc) l ≠ none ↔
      (keyLookup acc l ≠ none ∨ l ∈ ls) := by
  induction ls generalizing acc with
  | nil => simp
  | cons t ls ih =>
    rw [List.foldl_cons, ih, typesAccum_lookup]
    by_cases hl : l = t
    · subst hl
      simp
    · simp [hl]

theorem foldl_typesAccum_getD (ls : List String) (acc : List (String × Nat))
    (l : String) :
    (keyLookup (ls.foldl typesAccum acc) l).getD 0 =
      (keyLookup acc l).getD 0 + ls.count l := by
  induction ls generalizing acc with
  | nil => simp
  | cons t ls ih =>
    rw [List.foldl_cons, ih, typesAccum_lookup]
    by_cases hl : l = t
    · subst hl
      rw [List.count_cons_self, if_pos rfl, Option.getD_some]
      omega
    · rw [List.count_cons_of_ne hl, if_neg hl]

theorem realTypeHist_keys_nodup (ls : List String) :
    ((realTypeHist ls).map Prod.fst).Nodup :=
  foldl_typesAccum_keys_nodup ls [] (by simp)

theorem realTypeHist_lookup (ls : List String) (l : String) :
    keyLookup (realTypeHist ls) l =
      if l ∈ ls then some (ls.count l) else none := by
  have h1 := foldl_typesAccum_ne_none ls [] l
  have h2 := foldl_typesAccum_getD ls [] l
  simp only [keyLookup, ne_eq, not_true_eq_false, false_or, Option.getD_none,
    Nat.zero_add] at h1 h2
  unfold realTypeHist
  by_cases hm : l ∈ ls
  · rw [if_pos hm]
    cases hc : keyLookup (ls.foldl typesAccum []) l with
    | none => exact absurd hc (h1.mpr hm)
    | some c =>
      rw [hc] at h2
      simp only [Option.getD_some] at h2
      rw [h2]
  · rw [if_neg hm]
    by_contra hne
    exact hm (h1.mp hne)

theorem realTypeHist_mem (ls : List String) (l : String) (c : Nat) :
    (l, c) ∈ realTypeHist ls ↔ (l ∈ ls ∧ c = ls.count l) := by
  rw [keyLookup_mem _ (realTypeHist_keys_nodup ls) l c, realTypeHist_lookup]
  by_cases hm : l ∈ ls
  · simp [hm, eq_comm]
  · simp [hm]

theorem realTypeHist_keys_mem (ls : List String) (l : String) :
    l ∈ (realTypeHist ls).map Prod.fst ↔ l ∈ ls := by
  rw [← keyLookup_ne_none_iff, realTypeHist_lookup]
  by_cases hm : l ∈ ls <;> simp [hm]

theorem pairwise_and_aux {α : Type} {R S : α → α → Prop} {l : List α}
    (hr : l.Pairwise R) (hs : l.Pairwise S) :
    l.Pairwise fun a b => R a b ∧ S a b := by
  induction l with
  | nil => exact List.Pairwise.nil
  | cons a l ih =>
    rw [List.pairwise_cons] at hr hs ⊢
    exact ⟨fun b hb => ⟨hr.1 b hb, hs.1 b hb⟩, ih hr.2 hs.2⟩

theorem getRealType_mem_vocab (v : JSValue) : getRealType v ∈ realTypeVocab := by
  cases v with
  | number n =>
    cases n with
    | nan => decide
    | posInf => decide
    | negInf => decide
    | finite m => exact show "number" ∈ realTypeVocab by decide
  | boolean b => exact show "boolean" ∈ realTypeVocab by decide
  | string s => exact show "string" ∈ realTypeVocab by decide
  | bigint i => exact show "bigint" ∈ realTypeVocab by decide
  | symbol => decide
  | undefined => decide
  | function => decide
  | null => decide
  | array xs => exact show "array" ∈ realTypeVocab by decide
  | object => decide
  | date => decide
  | regexp => decide
  | set => decide
  | event => decide

theorem realTypeVocab_nodup : realTypeVocab.Nodup := by decide

theorem realTypeVocab_lower_nodup : (realTypeVocab.map lowerKey).Nodup := by decide

theorem lowered_nodup {ks : List String} (hnd : ks.Nodup)
    (hv : ∀ k ∈ ks, k ∈ realTypeVocab) : (ks.map lowerKey).Nodup := by
  refine List.Nodup.map_on ?_ hnd
  intro x hx y hy hxy
  exact (List.nodup_map_iff_inj_on realTypeVocab_nodup).mp realTypeVocab_lower_nodup
    x (hv x hx) y (hv y hy) hxy

theorem sorted_perm_eq (p : List (String × Nat)) :
    ∀ q, p.Perm q → List.Sorted histLe p → List.Sorted histLe q →
      ((p.map Prod.fst).map lowerKey).Nodup → p = q := by
  induction p with
  | nil =>
    intro q hpq _ _ _
    exact hpq.nil_eq
  | cons a p ih =>
    intro q hpq hp hq hnd
    cases q with
    | nil => exact (List.cons_ne_nil a p hpq.eq_nil).elim
    | cons b q' =>
      by_cases hab : a = b
      · subst hab
        have htail : p = q' := by
          refine ih q' hpq.cons_inv hp.of_cons hq.of_cons ?_
          simp only [List.map_cons, List.nodup_cons] at hnd
          exact hnd.2
        rw [htail]
      · have hbq : b ∈ a :: p := hpq.symm.subset (List.mem_cons_self b q')
        have haq : a ∈ b :: q' := hpq.subset (List.mem_cons_self a p)
        have hbp : b ∈ p := by
          rcases List.mem_cons.mp hbq with h | h
          · exact absurd h.symm hab
          · exact h
        have haq' : a ∈ q' := by
          rcases List.mem_cons.mp haq with h | h
          · exact absurd h hab
          · exact h
        have h1 : histLe a b := List.rel_of_sorted_cons hp b hbp
        have h2 : histLe b a := List.rel_of_sorted_cons hq a haq'
        have hkey : lowerKey a.1 = lowerKey b.1 := lexLe_antisymm _ _ h1 h2
        exfalso
        simp only [List.map_cons, List.nodup_cons] at hnd
        refine hnd.1 ?_
        rw [hkey]
        exact List.mem_map_of_mem lowerKey (List.mem_map_of_mem Prod.fst hbp)

theorem realTypeHist_perm {ls ls' : List String} (h : ls.Perm ls') :
    (realTypeHist ls).Perm (realTypeHist ls') := by
  have nd1 : (realTypeHist ls).Nodup :=
    List.Nodup.of_map Prod.fst (realTypeHist_keys_nodup ls)
  have nd2 : (realTypeHist ls').Nodup :=
    List.Nodup.of_map Prod.fst (realTypeHist_keys_nodup ls')
  rw [List.perm_ext_iff_of_nodup nd1 nd2]
  rintro ⟨l, c⟩
  rw [realTypeHist_mem, realTypeHist_mem, h.mem_iff, h.count_eq]

theorem countRealTypes_sorted (arr : List JSValue) :
    List.Sorted histLe (countRealTypes arr) := by
  rw [countRealTypes_eq]
  exact List.sorted_insertionSort histLe _

theorem countRealTypes_keys_nodup (arr : List JSValue) :
    ((countRealTypes arr).map Prod.fst).Nodup := by
  rw [countRealTypes_eq]
  exact ((List.perm_insertionSort histLe _).map Prod.fst).nodup_iff.mpr
    (realTypeHist_keys_nodup _)

theorem countRealTypes_keys_vocab (arr : List JSValue) :
    ∀ k ∈ (countRealTypes arr).map Prod.fst, k ∈ realTypeVocab := by
  intro k hk
  rw [countRealTypes_eq] at hk
  have hk' := ((List.perm_insertionSort histLe _).map Prod.fst).subset hk
  rw [realTypeHist_keys_mem] at hk'
  obtain ⟨v, -, rfl⟩ := List.mem_map.mp hk'
  exact getRealType_mem_vocab v

theorem all_head_eq (l : List String) :
    (l.all fun item => l.head? == some item) = true ↔
      ∀ a ∈ l, ∀ b ∈ l, a = b := by
  cases l with
  | nil => simp
  | cons h t =>
    simp only [List.all_eq_true, List.head?_cons, beq_iff_eq, Option.some.injEq]
    constructor
    · intro hx a ha b hb
      rw [← hx a ha, ← hx b hb]
    · intro hall x hx
      exact hall h (List.mem_cons_self h t) x hx

theorem allItems_iff (arr : List JSValue) :
    allItemsHaveTheSameType arr = true ↔
      ∀ x ∈ arr, ∀ y ∈ arr, getType x = getType y := by
  rw [show allItemsHaveTheSameType arr =
      ((arr.map getType).all fun item => (arr.map getType).head? == some item)
      from rfl]
  rw [all_head_eq]
  constructor
  · intro h x hx y hy
    exact h _ (List.mem_map_of_mem getType hx) _ (List.mem_map_of_mem getType hy)
  · intro h a ha b hb
    obtain ⟨x, hx, rfl⟩ := List.mem_map.mp ha
    obtain ⟨y, hy, rfl⟩ := List.mem_map.mp hb
    exact h x hx y hy

theorem uniqueScan_iff (l : List JSValue) :
    ∀ seen, uniqueScan l seen = true ↔
      ((l.map getRealType).Nodup ∧ ∀ t ∈ l.map getRealType, t ∉ seen) := by
  induction l with
  | nil =>
    intro seen
    simp [uniqueScan]
  | cons a l ih =>
    intro seen
    simp only [uniqueScan]
    by_cases hmem : getRealType a ∈ seen
    · rw [if_pos (by simpa using hmem)]
      constructor
      · intro h
        exact Bool.noConfusion h
      · rintro ⟨-, hall⟩
        exact absurd hmem (hall (getRealType a) (by simp))
    · rw [if_neg (by simpa using hmem)]
      rw [ih (seen ++ [getRealType a])]
      simp only [List.map_cons, List.nodup_cons, List.mem_cons, List.mem_append,
        List.not_mem_nil, or_false]
      constructor
      · rintro ⟨hnd, hall⟩
        refine ⟨⟨?_, hnd⟩, ?_⟩
        · intro hga
          exact (hall _ hga) (Or.inr rfl)
        · rintro t (rfl | ht)
          · exact hmem
          · intro hts
            exact (hall t ht) (Or.inl hts)
      · rintro ⟨⟨hga, hnd⟩, hall⟩
        refine ⟨hnd, ?_⟩
        intro t ht hts
        rcases hts with hts | rfl
        · exact (hall t (Or.inr ht)) hts
        · exact hga ht

theorem unique_iff_pairwise (arr : List JSValue) :
    everyItemHasAUniqueRealType arr = true ↔
      List.Pairwise (fun x y => getRealType x ≠ getRealType y) arr := by
  unfold everyItemHasAUniqueRealType
  rw [uniqueScan_iff arr []]
  rw [and_iff_left (by simp)]
  show (arr.map getRealType).Pairwise (fun a b => a ≠ b) ↔ _
  rw [List.pairwise_map]

theorem getType_eq_typeofOfLabel (v : JSValue) :
    getType v = typeofOfLabel (getRealType v) := by
  cases v with
  | number n =>
    cases n with
    | nan => decide
    | posInf => decide
    | negInf => decide
    | finite m => exact show ("number" : String) = typeofOfLabel "number" by decide
  | boolean b => exact show ("boolean" : String) = typeofOfLabel "boolean" by decide
  | string s => exact show ("string" : String) = typeofOfLabel "string" by decide
  | bigint i => exact show ("bigint" : String) = typeofOfLabel "bigint" by decide
  | symbol => decide
  | undefined => decide
  | function => decide
  | null => decide
  | array xs => exact show ("object" : String) = typeofOfLabel "array" by decide
  | object => decide
  | date => decide
  | regexp => decide
  | set => decide
  | event => decide

/-- C5: the classifier maps the distinguished inputs to their fixed labels:
NaN to "NaN", both infinities to "Infinity", null to "null", an empty array
to "array" and a plain object to "object". -/
theorem getRealType_distinguished :
    getRealType (.number .nan) = "NaN" ∧
    getRealType (.number .posInf) = "Infinity" ∧
    getRealType (.number .negInf) = "Infinity" ∧
    getRealType .null = "null" ∧
    getRealType (.array []) = "array" ∧
    getRealType .object = "object" := by
  exact ⟨rfl, rfl, rfl, rfl, rfl, rfl⟩

/-- C7: the classifier is total: every modelled value, including
`undefined`, is mapped to a non-empty label (and `undefined` is mapped to
the label "undefined").  In this embedding `getRealType` is a total
function, so it cannot raise. -/
theorem getRealType_total :
    (∀ v : JSValue, 0 < (getRealType v).length) ∧
    getRealType JSValue.undefined = "undefined" := by
  refine ⟨?_, rfl⟩
  intro v
  exact (by decide : ∀ s ∈ realTypeVocab, 0 < s.length) _ (getRealType_mem_vocab v)

/-- C2 counterexample: `allItemsHaveTheSameType` classifies with `getType`
(JS `typeof`), not with `getRealType`: on `[null, {}]` it returns `true`
although the `getRealType` label of `{}` differs from that of the first
element `null`, so the claimed iff with fine-grained labels fails. -/
theorem allItemsHaveTheSameType_realType_counterexample :
    allItemsHaveTheSameType [JSValue.null, JSValue.object] = true ∧
    ¬ ∀ x ∈ [JSValue.null, JSValue.object],
        getRealType x = getRealType JSValue.null := by
  refine ⟨by decide, fun h => ?_⟩
  exact absurd (h JSValue.object (by simp)) (by decide)

/-- C2 (amended): `allItemsHaveTheSameType` returns `true` iff all elements
have the same basic kind under `getType` (JS `typeof`), and it returns
`true` on the empty array. -/
theorem allItemsHaveTheSameType_getType_iff :
    (∀ arr : List JSValue, allItemsHaveTheSameType arr = true ↔
       ∀ x ∈ arr, ∀ y ∈ arr, getType x = getType y) ∧
    allItemsHaveTheSameType [] = true :=
  ⟨allItems_iff, by decide⟩

/-- C6: `everyItemHasAUniqueRealType` returns `true` iff no two elements of
the array share a `getRealType` label, and it returns `true` on the empty
array. -/
theorem everyItemHasAUniqueRealType_iff :
    (∀ arr : List JSValue, everyItemHasAUniqueRealType arr = true ↔
       List.Pairwise (fun x y => getRealType x ≠ getRealType y) arr) ∧
    everyItemHasAUniqueRealType [] = true :=
  ⟨unique_iff_pairwise, by decide⟩

/-- C3: the counts in `countRealTypes arr` sum to the length of `arr`, and
the labels appearing in `countRealTypes arr` are exactly the labels obtained
by classifying the elements of `arr` with `getRealType`. -/
theorem countRealTypes_sum_and_labels (arr : List JSValue) :
    ((countRealTypes arr).map Prod.snd).sum = arr.length ∧
    ∀ l : String,
      l ∈ (countRealTypes arr).map Prod.fst ↔ l ∈ arr.map getRealType := by
  constructor
  · rw [countRealTypes_eq,
      ((List.perm_insertionSort histLe _).map Prod.snd).sum_eq]
    unfold realTypeHist
    rw [foldl_typesAccum_sum]
    simp
  · intro l
    rw [countRealTypes_eq,
      ((List.perm_insertionSort histLe _).map Prod.fst).mem_iff,
      realTypeHist_keys_mem]

/-- C4: `countRealTypes` maps the empty array to the empty list, every
count in its output is at least 1, and each label appears at most once in
its output. -/
theorem countRealTypes_empty_pos_nodup :
    countRealTypes ([] : List JSValue) = [] ∧
    (∀ arr : List JSValue, ∀ p ∈ countRealTypes arr, 1 ≤ p.2) ∧
    ∀ arr : List JSValue, ((countRealTypes arr).map Prod.fst).Nodup := by
  refine ⟨rfl, ?_, countRealTypes_keys_nodup⟩
  intro arr p hp
  rw [countRealTypes_eq] at hp
  have hp' := (List.perm_insertionSort histLe _).subset hp
  exact foldl_typesAccum_pos _ [] (by simp) p hp'

/-- C1 counterexample: the output of `countRealTypes` is NOT sorted by
plain codepoint-lexicographic comparison of labels: on `[NaN, true]` the
`localeCompare` comparator puts `"boolean"` before `"NaN"`, while codepoint
order puts `"NaN"` (capital `N`, codepoint 78) before `"boolean"`
(lowercase `b`, codepoint 98). -/
theorem countRealTypes_codepoint_counterexample :
    ¬ List.Pairwise (fun p q : String × Nat => codepointLe p.1 q.1)
        (countRealTypes [JSValue.number JSNumber.nan, JSValue.boolean true]) := by
  intro hpw
  have h2 : countRealTypes [JSValue.number JSNumber.nan, JSValue.boolean true] =
      [("boolean", 1), ("NaN", 1)] := by decide
  rw [h2] at hpw
  have := (List.pairwise_cons.mp hpw).1 ("NaN", 1) (List.mem_cons_self _ _)
  exact absurd this (by decide)

/-- C1 (amended): the pairs returned by `countRealTypes` are strictly
sorted by label under the `localeCompare` comparator the source passes to
`sort` (modelled at the default locale, where it coincides with
case-insensitive lexicographic order on the label vocabulary); the labels
are pairwise distinct, so the ordering is deterministic for a fixed host
locale, but it is locale-sensitive and differs from plain codepoint
order. -/
theorem countRealTypes_sorted_locale (arr : List JSValue) :
    List.Pairwise (fun p q : String × Nat => histLe p q ∧ p.1 ≠ q.1)
      (countRealTypes arr) := by
  refine pairwise_and_aux (countRealTypes_sorted arr) ?_
  exact List.pairwise_map.mp (countRealTypes_keys_nodup arr)

/-- C9: `countRealTypes` is permutation-invariant: permuting the input
array leaves the output list of (label, count) pairs unchanged. -/
theorem countRealTypes_perm_invariant {arr arr' : List JSValue}
    (h : arr.Perm arr') : countRealTypes arr = countRealTypes arr' := by
  have hperm : (arr.map getRealType).Perm (arr'.map getRealType) :=
    h.map getRealType
  have hh := realTypeHist_perm hperm
  have hsp : (countRealTypes arr).Perm (countRealTypes arr') := by
    rw [countRealTypes_eq, countRealTypes_eq]
    exact ((List.perm_insertionSort histLe _).trans hh).trans
      (List.perm_insertionSort histLe _).symm
  exact sorted_perm_eq _ _ hsp (countRealTypes_sorted arr)
    (countRealTypes_sorted arr')
    (lowered_nodup (countRealTypes_keys_nodup arr) (countRealTypes_keys_vocab arr))

/-- Witness for C9 at a concrete permutation. -/
theorem countRealTypes_perm_invariant_witness :
    countRealTypes [JSValue.boolean true, JSValue.null] =
      countRealTypes [JSValue.null, JSValue.boolean true] :=
  countRealTypes_perm_invariant
    (List.Perm.swap JSValue.null (JSValue.boolean true) [])

/-- C10: the fine-grained classification refines the basic one: equal
`getRealType` labels force equal `getType` kinds, and an array whose
elements all share a `getRealType` label satisfies
`allItemsHaveTheSameType`. -/
theorem getRealType_refines_getType :
    (∀ a b : JSValue, getRealType a = getRealType b → getType a = getType b) ∧
    ∀ arr : List JSValue,
      (∀ x ∈ arr, ∀ y ∈ arr, getRealType x = getRealType y) →
      allItemsHaveTheSameType arr = true := by
  have href : ∀ a b : JSValue, getRealType a = getRealType b →
      getType a = getType b := by
    intro a b h
    rw [getType_eq_typeofOfLabel, getType_eq_typeofOfLabel, h]
  refine ⟨href, ?_⟩
  intro arr h
  rw [allItems_iff]
  intro x hx y hy
  exact href x y (h x hx y hy)

/-- Witness for C10 at concrete inputs. -/
theorem getRealType_refines_getType_witness :
    getType JSValue.object = getType JSValue.object ∧
    allItemsHaveTheSameType [JSValue.object, JSValue.object] = true :=
  ⟨getRealType_refines_getType.1 JSValue.object JSValue.object rfl,
   getRealType_refines_getType.2 [JSValue.object, JSValue.object] (by decide)⟩

/-- C8 counterexample: `areEqual` compares arrays through their `toString`
images, not pairwise: `[[]]` and `[""]` have the same length and the same
joined string `""`, so `areEqual` returns `true`, although their single
elements (a sequence and a non-sequence) are not equal — `areEqual` itself
rejects that very pair. -/
theorem areEqual_pairwise_counterexample :
    areEqual (.array [JSValue.array []]) (.array [JSValue.string ""]) =
      some true ∧
    areEqual (JSValue.array []) (JSValue.string "") = some false := by
  exact ⟨by decide, by decide⟩

/-- C8 (amended): for two arrays, `areEqual` returns `true` exactly when
they have the same length and their `Array.prototype.toString` images both
evaluate to the same string (pairwise element equality implies this but is
not implied by it); an array is never `areEqual` to a non-array value. -/
theorem areEqual_array_spec (a b : List JSValue) (v : JSValue) :
    (areEqual (.array a) (.array b) = some true ↔
      a.length = b.length ∧
      ∃ s, jsArrayToString a = some s ∧ jsArrayToString b = some s) ∧
    ((∀ xs : List JSValue, v ≠ JSValue.array xs) →
      areEqual (JSValue.array a) v = some false) := by
  constructor
  · simp only [areEqual]
    by_cases hl : a.length = b.length
    · rw [if_neg (by simpa using hl)]
      cases ha : jsArrayToString a with
      | none => simp [ha]
      | some sa =>
        cases hb : jsArrayToString b with
        | none => simp [ha, hb]
        | some sb =>
          change (some (sa == sb) = some true) ↔ _
          simp only [Option.some.injEq, beq_iff_eq]
          constructor
          · intro h
            exact ⟨hl, sa, rfl, by rw [h]⟩
          · rintro ⟨-, s, rfl, hs2⟩
            exact hs2.symm
    · rw [if_pos (by simpa using hl)]
      simp [hl]
  · intro hv
    cases v with
    | array xs => exact absurd rfl (hv xs)
    | boolean b => rfl
    | number n => rfl
    | string s => rfl
    | bigint i => rfl
    | symbol => rfl
    | undefined => rfl
    | function => rfl
    | null => rfl
    | object => rfl
    | date => rfl
    | regexp => rfl
    | set => rfl
    | event => rfl

/-- Witness for C8 at concrete inputs. -/
theorem areEqual_array_spec_witness :
    areEqual (JSValue.array []) JSValue.null = some false :=
  (areEqual_array_spec [] [] JSValue.null).2 (fun xs h => by cases h)
